import Mathlib

/-!
Shallow embedding of the StudyMania study-assistant front end
(`src/index.tsx`): the local material store, the app-level history
clearing, the quiz response validation, the quiz session state machine
(presenting / results / mistake review) and the flashcard game state
machine (loading with cooperative cancellation / presenting / results).

DOM mutations are modelled as fields of explicit state records; the
globals of the script (`quizQuestions`, `incorrectAnswers`,
`currentQuestionIndex`, `score`, `isReviewingMistakes`, `flashcards`,
`currentCardIndex`, `knownCardsCount`) are fields of the same records.
User interactions and asynchronous completions are events consumed by a
step function.
-/

namespace StudyMania

/-- JS `String.prototype.trim`: strip whitespace from both ends of the
character sequence. -/
def jsTrim (cs : List Char) : List Char :=
  ((cs.dropWhile Char.isWhitespace).reverse.dropWhile Char.isWhitespace).reverse

/-- JS `String.prototype.toLowerCase`, character by character (the
ASCII range, which is what the case-insensitive answer comparison needs). -/
def jsToLower (cs : List Char) : List Char := cs.map Char.toLower

/-- Embedding of `s.trim().toLowerCase()` used throughout the answer
comparisons in `index.tsx`, working on the character sequence of the
string. -/
def normalize (s : String) : String := String.mk (jsToLower (jsTrim s.data))

/-- Embedding of the comparison
`selectedAnswer.trim().toLowerCase() === correctAnswer.trim().toLowerCase()`
from `handleOptionClick`. -/
def isCorrectAnswer (selected correctAnswer : String) : Bool :=
  normalize selected == normalize correctAnswer

/-- The `QuizQuestion` interface of `index.tsx`. -/
structure QuizQuestion where
  question : String
  options : List String
  correctAnswer : String
deriving Repr, DecidableEq

/-- An entry of the `incorrectAnswers` array:
`{ question: QuizQuestion; selected: string }`. -/
structure Mistake where
  question : QuizQuestion
  selected : String
deriving Repr, DecidableEq

/-- The `Flashcard` interface of `index.tsx`. -/
structure Flashcard where
  term : String
  definition : String
deriving Repr, DecidableEq

/-- The `HistoryItem` interface (an `ActiveFile` plus a timestamp).
The timestamp is stored as an ISO string and compared through
`new Date(t).getTime()`; we embed that instant directly as the
number of milliseconds since the epoch. -/
structure HistoryItem where
  id : String
  name : String
  content : String
  mimeType : String
  timestamp : Nat
deriving Repr, DecidableEq

/-- The comparator of `loadHistoryFromDB`:
`(a, b) => new Date(b.timestamp).getTime() - new Date(a.timestamp).getTime()`,
i.e. `a` precedes `b` exactly when `b.timestamp ≤ a.timestamp`
(descending, newest first). `Array.prototype.sort` is stable, as is
`List.mergeSort`. -/
def newerFirst (a b : HistoryItem) : Bool :=
  b.timestamp ≤ a.timestamp

/-- Embedding of `loadHistoryFromDB` (the `listAll` operation): reads
every record of the backing store and sorts it descending by
timestamp. The store contents are passed explicitly. -/
def loadHistoryFromDB (records : List HistoryItem) : List HistoryItem :=
  records.mergeSort newerFirst

/-- The in-memory application state touched by the history-clearing
flow: the durable store contents, the in-memory `history` array, the
`activeFile` selection and the status line. -/
structure AppState where
  store : List HistoryItem
  history : List HistoryItem
  activeFile : Option HistoryItem
  statusText : String
deriving Repr, DecidableEq

/-- Embedding of `clearHistory` in `index.tsx`: behind a confirmation
dialog it awaits `clearHistoryDB` (which clears the object store in one
transaction; `dbOk` tells whether that transaction completed or
errored).  On success the store, the in-memory history and the active
selection are all emptied; on failure only the status line changes and
the prior in-memory state is kept (an aborted IndexedDB transaction
rolls back, so the store is also kept). -/
def clearHistory (confirmed : Bool) (dbOk : Bool) (s : AppState) : AppState :=
  if confirmed then
    if dbOk then
      { s with store := [], history := [], activeFile := none,
               statusText := "History cleared." }
    else
      { s with statusText := "Error clearing history." }
  else s

/-- Embedding of the quiz-response validation in the `startQuizBtn`
handler: the parsed JSON either fails to match the schema (`none`) or
yields a list of questions; the handler accepts it iff
`quizData && quizData.questions && quizData.questions.length > 0`,
otherwise it throws `Invalid quiz format received from AI.` and the
catch block shows an error instead of starting the quiz. -/
def parseQuizResponse (data : Option (List QuizQuestion)) :
    Except String (List QuizQuestion) :=
  match data with
  | some qs =>
      if qs.length > 0 then Except.ok qs
      else Except.error "Invalid quiz format received from AI."
  | none => Except.error "Invalid quiz format received from AI."

/-- The visible/interactive section of the quiz flow, as controlled by
the `hidden` classes in `index.tsx`:
`idle` = the Q&A section (quiz not running), `presenting answered` =
quiz content with the current question (with `answered = true` once an
option has been clicked: all option buttons disabled, next visible),
`results` = the results section, `reviewing` = quiz content replaying a
mistake (all options disabled, next visible). -/
inductive QuizPhase
  | idle
  | presenting (answered : Bool)
  | results
  | reviewing
deriving Repr, DecidableEq

/-- The quiz-flow state: the script globals plus the phase of the DOM,
the visibility of the review-mistakes button, the number of gateway
(`ai.models.generateContent`) calls made so far, and an
instrumentation trace `selections` recording the argument of every
scoring evaluation (`handleOptionClick` invocation) since the last
(re)start. -/
structure QuizState where
  phase : QuizPhase
  quizQuestions : List QuizQuestion
  incorrectAnswers : List Mistake
  currentQuestionIndex : Nat
  score : Nat
  isReviewingMistakes : Bool
  reviewBtnVisible : Bool
  gatewayCalls : Nat
  selections : List (QuizQuestion × String)
deriving Repr, DecidableEq

/-- The user actions and asynchronous completions driving the quiz
flow.  `quizResponse r` is the settling of the `generateContent` call
triggered by the start-quiz button (`r = none` models a transport error
or malformed JSON); `selectOption o` is a click on the option button
labelled `o`; the rest are the other buttons of the quiz UI. -/
inductive QuizEvent
  | quizResponse (r : Option (List QuizQuestion))
  | selectOption (o : String)
  | next
  | reviewMistakes
  | restart
  | exitQuiz
deriving Repr, DecidableEq

/-- The condition computed by `showResults`:
`scorePercentage = score / quizQuestions.length` and the review button
is unhidden iff `scorePercentage < 0.6 && incorrectAnswers.length > 0`. -/
def reviewOffered (s : QuizState) : Bool :=
  decide ((s.score : ℚ) / (s.quizQuestions.length : ℚ) < 6 / 10) &&
    decide (0 < s.incorrectAnswers.length)

/-- Embedding of `showResults`: hide the quiz section, show the results
section, and set the review button visibility from the score
percentage and the mistake log. -/
def showResults (s : QuizState) : QuizState :=
  { s with phase := QuizPhase.results, reviewBtnVisible := reviewOffered s }

/-- Embedding of `startQuiz`: reset index, score, mistake log, review
flag and review-button visibility, then display the first question of
the (already loaded) `quizQuestions`.  The instrumentation trace is
reset with the counters. -/
def startQuiz (s : QuizState) : QuizState :=
  { s with currentQuestionIndex := 0, score := 0, incorrectAnswers := [],
           isReviewingMistakes := false, reviewBtnVisible := false,
           phase := QuizPhase.presenting false, selections := [] }

/-- Embedding of `handleOptionClick selectedAnswer correctAnswer`: one
scoring evaluation.  A correct selection increments `score`; an
incorrect one appends `{ question: quizQuestions[currentQuestionIndex],
selected: selectedAnswer }` to `incorrectAnswers`.  Either way all
option buttons are disabled and the next button is revealed
(`answered := true`). -/
def handleOptionClick (s : QuizState) (q : QuizQuestion) (o : String) :
    QuizState :=
  if isCorrectAnswer o q.correctAnswer then
    { s with phase := QuizPhase.presenting true, score := s.score + 1,
             selections := s.selections ++ [(q, o)] }
  else
    { s with phase := QuizPhase.presenting true,
             incorrectAnswers := s.incorrectAnswers ++ [⟨q, o⟩],
             selections := s.selections ++ [(q, o)] }

/-- Embedding of the `nextQuestionBtn` click handler: increment
`currentQuestionIndex`; in review mode display the next mistake or
leave review mode and re-show the results; otherwise display the next
question or show the results. -/
def nextQuestion (s : QuizState) : QuizState :=
  let i := s.currentQuestionIndex + 1
  if s.isReviewingMistakes then
    if i < s.incorrectAnswers.length then
      { s with currentQuestionIndex := i }
    else
      showResults { s with currentQuestionIndex := i,
                           isReviewingMistakes := false }
  else
    if i < s.quizQuestions.length then
      { s with currentQuestionIndex := i,
               phase := QuizPhase.presenting false }
    else
      showResults { s with currentQuestionIndex := i }

/-- One step of the quiz flow.  Each event is guarded by the phase in
which its button (or pending request) exists in the DOM:
- `quizResponse` settles the generation request issued from the idle
  (Q&A) section; a valid non-empty question list assigns
  `quizQuestions` and runs `startQuiz`, anything else surfaces an error
  and reverts to the Q&A section;
- `selectOption o` is a click on an enabled option button, which only
  exists while a question is presented and unanswered, and only for
  labels drawn from the current question's `options`;
- `next` exists (un-hidden) once a question is answered, and during
  mistake review;
- `reviewMistakes` exists only on the results screen while un-hidden;
- `restart` re-runs `startQuiz` on the same question set;
- `exitQuiz` discards the quiz state and returns to the Q&A section. -/
def quizStep (s : QuizState) (e : QuizEvent) : QuizState :=
  match e with
  | QuizEvent.quizResponse r =>
      if s.phase = QuizPhase.idle then
        match parseQuizResponse r with
        | Except.ok qs =>
            startQuiz { s with quizQuestions := qs,
                               gatewayCalls := s.gatewayCalls + 1 }
        | Except.error _ =>
            { s with gatewayCalls := s.gatewayCalls + 1 }
      else s
  | QuizEvent.selectOption o =>
      match s.phase with
      | QuizPhase.presenting false =>
          match s.quizQuestions[s.currentQuestionIndex]? with
          | some q => if o ∈ q.options then handleOptionClick s q o else s
          | none => s
      | _ => s
  | QuizEvent.next =>
      match s.phase with
      | QuizPhase.presenting true => nextQuestion s
      | QuizPhase.reviewing => nextQuestion s
      | _ => s
  | QuizEvent.reviewMistakes =>
      if s.phase = QuizPhase.results ∧ s.reviewBtnVisible then
        { s with isReviewingMistakes := true, currentQuestionIndex := 0,
                 phase := QuizPhase.reviewing }
      else s
  | QuizEvent.restart =>
      if s.phase = QuizPhase.results then startQuiz s else s
  | QuizEvent.exitQuiz =>
      if s.phase = QuizPhase.results then
        { s with phase := QuizPhase.idle, quizQuestions := [],
                 incorrectAnswers := [], currentQuestionIndex := 0,
                 score := 0, isReviewingMistakes := false,
                 selections := [] }
      else s

/-- The state at page load: no quiz running, everything empty. -/
def initQuizState : QuizState :=
  { phase := QuizPhase.idle, quizQuestions := [], incorrectAnswers := [],
    currentQuestionIndex := 0, score := 0, isReviewingMistakes := false,
    reviewBtnVisible := false, gatewayCalls := 0, selections := [] }

/-- Run the quiz flow over a list of events. -/
def runQuiz (s : QuizState) (es : List QuizEvent) : QuizState :=
  es.foldl quizStep s

/-- A quiz state is reachable when some event sequence produces it from
the page-load state. -/
def QuizReachable (s : QuizState) : Prop :=
  ∃ es, runQuiz initQuizState es = s

/-- Whether a recorded selection was scored as correct. -/
def selCorrect (p : QuizQuestion × String) : Bool :=
  isCorrectAnswer p.2 p.1.correctAnswer

/-- The phase-dependent part of the quiz invariant, split on a given
phase: index bounds per active sequence, the review flag matching the
phase, and (on the results screen) the review-button visibility
matching the condition of `showResults`. -/
def phaseInvAt (s : QuizState) : QuizPhase → Prop
  | QuizPhase.idle => True
  | QuizPhase.presenting _ =>
      s.currentQuestionIndex < s.quizQuestions.length ∧
        s.isReviewingMistakes = false
  | QuizPhase.reviewing =>
      s.currentQuestionIndex < s.incorrectAnswers.length ∧
        s.isReviewingMistakes = true ∧ 0 < s.quizQuestions.length
  | QuizPhase.results =>
      (s.currentQuestionIndex = s.quizQuestions.length ∨
         s.currentQuestionIndex = s.incorrectAnswers.length) ∧
        s.isReviewingMistakes = false ∧ 0 < s.quizQuestions.length ∧
        s.reviewBtnVisible = reviewOffered s

/-- The phase-dependent part of the quiz invariant. -/
def quizPhaseInv (s : QuizState) : Prop := phaseInvAt s s.phase

/-- The quiz invariant: the score is the number of correct recorded
selections, the mistake log is exactly the incorrect recorded
selections in order, and the phase-dependent bounds hold. -/
def QuizInv (s : QuizState) : Prop :=
  s.score = (s.selections.filter selCorrect).length ∧
    s.incorrectAnswers =
      (s.selections.filter fun p => !selCorrect p).map
        (fun p => { question := p.1, selected := p.2 }) ∧
    quizPhaseInv s

theorem quizInv_init : QuizInv initQuizState := ⟨rfl, rfl, trivial⟩

theorem quizInv_startQuiz (s : QuizState)
    (h : 0 < s.quizQuestions.length) : QuizInv (startQuiz s) :=
  ⟨rfl, rfl, h, rfl⟩

theorem quizInv_step (s : QuizState) (e : QuizEvent) (h : QuizInv s) :
    QuizInv (quizStep s e) := by
  obtain ⟨ph, qq, ia, idx, sc, rev, btn, gw, sel⟩ := s
  obtain ⟨hscore, hinc, hph⟩ := h
  replace hscore : sc = (sel.filter selCorrect).length := hscore
  replace hinc : ia = (sel.filter fun p => !selCorrect p).map
      (fun p => { question := p.1, selected := p.2 }) := hinc
  cases e with
  | quizResponse r =>
      cases ph with
      | idle =>
          rcases r with _ | qs
          · exact ⟨hscore, hinc, hph⟩
          · rcases qs with _ | ⟨q, qs⟩
            · exact ⟨hscore, hinc, hph⟩
            · refine ⟨?_, ?_, ?_⟩ <;>
                simp [quizStep, parseQuizResponse, startQuiz, quizPhaseInv,
                  phaseInvAt]
      | presenting b => exact ⟨hscore, hinc, hph⟩
      | results => exact ⟨hscore, hinc, hph⟩
      | reviewing => exact ⟨hscore, hinc, hph⟩
  | selectOption o =>
      cases ph with
      | idle => exact ⟨hscore, hinc, hph⟩
      | results => exact ⟨hscore, hinc, hph⟩
      | reviewing => exact ⟨hscore, hinc, hph⟩
      | presenting b =>
          cases b with
          | true => exact ⟨hscore, hinc, hph⟩
          | false =>
              simp only [quizPhaseInv, phaseInvAt] at hph
              obtain ⟨hlt, hrev⟩ := hph
              rcases hq : qq[idx]? with _ | q
              · simp only [quizStep, hq]
                exact ⟨hscore, hinc, hlt, hrev⟩
              · simp only [quizStep, hq]
                by_cases hmem : o ∈ q.options
                · simp only [if_pos hmem, handleOptionClick]
                  by_cases hc : isCorrectAnswer o q.correctAnswer
                  · simp only [if_pos hc]
                    refine ⟨?_, ?_, hlt, hrev⟩
                    · simp [List.filter_append, selCorrect, hc, hscore]
                    · simpa [List.filter_append, selCorrect, hc] using hinc
                  · simp only [if_neg hc]
                    refine ⟨?_, ?_, hlt, hrev⟩
                    · simp [List.filter_append, selCorrect, hc, hscore]
                    · simp [List.filter_append, selCorrect, hc, hinc]
                · simp only [if_neg hmem]
                  exact ⟨hscore, hinc, hlt, hrev⟩
  | next =>
      cases ph with
      | idle => exact ⟨hscore, hinc, hph⟩
      | results => exact ⟨hscore, hinc, hph⟩
      | presenting b =>
          cases b with
          | false => exact ⟨hscore, hinc, hph⟩
          | true =>
              simp only [quizPhaseInv, phaseInvAt] at hph
              obtain ⟨hlt, hrev⟩ := hph
              subst hrev
              by_cases hnext : idx + 1 < qq.length
              · refine ⟨?_, ?_, ?_⟩ <;>
                  simp [quizStep, nextQuestion, hnext, quizPhaseInv,
                    phaseInvAt, hscore, hinc]
              · refine ⟨?_, ?_, ?_⟩
                · simp [quizStep, nextQuestion, hnext, showResults, hscore]
                · simp [quizStep, nextQuestion, hnext, showResults, hinc]
                · simp [quizStep, nextQuestion, hnext, showResults,
                    quizPhaseInv, phaseInvAt, reviewOffered]
                  omega
      | reviewing =>
          simp only [quizPhaseInv, phaseInvAt] at hph
          obtain ⟨hlt, hrev, hq0⟩ := hph
          subst hrev
          by_cases hnext : idx + 1 < ia.length
          · refine ⟨?_, ?_, ?_⟩
            · simpa [quizStep, nextQuestion, hnext] using hscore
            · simpa [quizStep, nextQuestion, hnext] using hinc
            · simp [quizStep, nextQuestion, hnext, quizPhaseInv, phaseInvAt]
              omega
          · refine ⟨?_, ?_, ?_⟩
            · simpa [quizStep, nextQuestion, hnext, showResults] using hscore
            · simpa [quizStep, nextQuestion, hnext, showResults] using hinc
            · simp [quizStep, nextQuestion, hnext, showResults, quizPhaseInv,
                phaseInvAt, reviewOffered]
              omega
  | reviewMistakes =>
      cases ph with
      | idle => exact ⟨hscore, hinc, hph⟩
      | presenting b => exact ⟨hscore, hinc, hph⟩
      | reviewing => exact ⟨hscore, hinc, hph⟩
      | results =>
          cases btn with
          | false => exact ⟨hscore, hinc, hph⟩
          | true =>
              simp only [quizPhaseInv, phaseInvAt] at hph
              obtain ⟨hidx, hrev, hq0, hbtn⟩ := hph
              have hmist : 0 < ia.length := by
                have h2 := hbtn.symm
                simp only [reviewOffered, Bool.and_eq_true,
                  decide_eq_true_eq] at h2
                exact h2.2
              exact ⟨hscore, hinc, hmist, rfl, hq0⟩
  | restart =>
      cases ph with
      | idle => exact ⟨hscore, hinc, hph⟩
      | presenting b => exact ⟨hscore, hinc, hph⟩
      | reviewing => exact ⟨hscore, hinc, hph⟩
      | results =>
          simp only [quizPhaseInv, phaseInvAt] at hph
          exact quizInv_startQuiz _ hph.2.2.1
  | exitQuiz =>
      cases ph with
      | idle => exact ⟨hscore, hinc, hph⟩
      | presenting b => exact ⟨hscore, hinc, hph⟩
      | reviewing => exact ⟨hscore, hinc, hph⟩
      | results => exact ⟨rfl, rfl, trivial⟩

theorem quizInv_run (es : List QuizEvent) (s : QuizState) (h : QuizInv s) :
    QuizInv (runQuiz s es) := by
  induction es generalizing s with
  | nil => exact h
  | cons e es ih => exact ih (quizStep s e) (quizInv_step s e h)

theorem quizInv_reachable (s : QuizState) (h : QuizReachable s) :
    QuizInv s := by
  obtain ⟨es, hes⟩ := h
  exact hes ▸ quizInv_run es initQuizState quizInv_init

/-- The visible/interactive section of the flashcard game flow:
`idle` = the Q&A section, `loading` = the loading container with the
cancel button, `loadFailed` = the loading container showing an error
with the cancel button repurposed as exit, `presenting` = the current
card, `results` = the game results section. -/
inductive GamePhase
  | idle
  | loading
  | loadFailed
  | presenting
  | results
deriving Repr, DecidableEq

/-- The flashcard-game state: the script globals plus the phase of the
DOM, the flip state of the current card, whether a `generateContent`
request is in flight (`pending`), whether the abort controller of that
request was signalled (`aborted`), and whether an error message is
currently visible to the user (`errorShown`). -/
structure GameState where
  phase : GamePhase
  flashcards : List Flashcard
  currentCardIndex : Nat
  knownCardsCount : Nat
  isFlipped : Bool
  pending : Bool
  aborted : Bool
  errorShown : Bool
deriving Repr, DecidableEq

/-- The user actions and asynchronous completions driving the
flashcard game: the start-game button, the cancel/exit button of the
loading screen (`abortHandler`), the settling of the generation request
(`r = none` models a transport/parse error), the card flip, the two
self-scoring buttons, restart and exit. -/
inductive GameEvent
  | startGameClick
  | cancelClick
  | gameResponse (r : Option (List Flashcard))
  | flipCard
  | knewIt
  | didntKnow
  | restartGame
  | exitGame
deriving Repr, DecidableEq

/-- Embedding of `displayCurrentCard`: if the index has reached the end
of the deck this is the terminal `showGameResults` transition,
otherwise the card at the index is shown face down. -/
def displayCurrentCard (s : GameState) : GameState :=
  if s.currentCardIndex ≥ s.flashcards.length then
    { s with phase := GamePhase.results }
  else
    { s with phase := GamePhase.presenting, isFlipped := false }

/-- Embedding of `startGame`: reset index and known-count, then display
the current (first) card. -/
def startGame (s : GameState) : GameState :=
  displayCurrentCard { s with currentCardIndex := 0, knownCardsCount := 0 }

/-- Embedding of `advanceCard`: increment the index and display. -/
def advanceCard (s : GameState) : GameState :=
  displayCurrentCard { s with currentCardIndex := s.currentCardIndex + 1 }

/-- One step of the flashcard game.  Guards follow the DOM:
- `startGameClick` needs the Q&A section (an active material is
  assumed); it shows the loading screen and issues the request with a
  fresh `AbortController`;
- `cancelClick` runs `abortHandler`: signal the controller and return
  to the Q&A section (it stays attached after a failed load, repurposed
  as exit); nothing remains visible from the game UI, so no error is
  shown;
- `gameResponse r` settles the request: if the signal was aborted the
  handler returns immediately and nothing changes; a non-empty deck
  starts the game; an empty deck or an error keeps the loading screen
  with the error text shown;
- `flipCard` toggles the reveal; the self-scoring controls are only
  visible while flipped;
- `knewIt` increments `knownCardsCount` and advances, `didntKnow` just
  advances;
- `restartGame` re-runs `startGame` on the same deck; `exitGame`
  discards the deck and returns to the Q&A section. -/
def gameStep (s : GameState) (e : GameEvent) : GameState :=
  match e with
  | GameEvent.startGameClick =>
      if s.phase = GamePhase.idle then
        { s with phase := GamePhase.loading, pending := true,
                 aborted := false, errorShown := false }
      else s
  | GameEvent.cancelClick =>
      if s.phase = GamePhase.loading ∨ s.phase = GamePhase.loadFailed then
        { s with aborted := true, phase := GamePhase.idle,
                 errorShown := false }
      else s
  | GameEvent.gameResponse r =>
      if s.pending then
        if s.aborted then s
        else
          match r with
          | some fs =>
              if fs.length > 0 then
                startGame { s with flashcards := fs, pending := false }
              else
                { s with phase := GamePhase.loadFailed, pending := false,
                         errorShown := true }
          | none =>
              { s with phase := GamePhase.loadFailed, pending := false,
                       errorShown := true }
      else s
  | GameEvent.flipCard =>
      if s.phase = GamePhase.presenting then
        { s with isFlipped := !s.isFlipped }
      else s
  | GameEvent.knewIt =>
      if s.phase = GamePhase.presenting ∧ s.isFlipped then
        advanceCard { s with knownCardsCount := s.knownCardsCount + 1 }
      else s
  | GameEvent.didntKnow =>
      if s.phase = GamePhase.presenting ∧ s.isFlipped then advanceCard s
      else s
  | GameEvent.restartGame =>
      if s.phase = GamePhase.results then startGame s else s
  | GameEvent.exitGame =>
      if s.phase = GamePhase.results then
        { s with phase := GamePhase.idle, flashcards := [] }
      else s

/-- The game state at page load. -/
def initGameState : GameState :=
  { phase := GamePhase.idle, flashcards := [], currentCardIndex := 0,
    knownCardsCount := 0, isFlipped := false, pending := false,
    aborted := false, errorShown := false }

/-- Run the flashcard game over a list of events. -/
def runGame (s : GameState) (es : List GameEvent) : GameState :=
  es.foldl gameStep s

/-- A game state is reachable when some event sequence produces it from
the page-load state. -/
def GameReachable (s : GameState) : Prop :=
  ∃ es, runGame initGameState es = s

/-- The phase-dependent flashcard invariant, split on a given phase. -/
def gamePhaseInvAt (s : GameState) : GamePhase → Prop
  | GamePhase.loading => s.errorShown = false ∧ s.pending = true
  | GamePhase.presenting => s.currentCardIndex < s.flashcards.length
  | GamePhase.results => s.currentCardIndex = s.flashcards.length
  | _ => True

/-- The flashcard-game invariant. -/
def GameInv (s : GameState) : Prop := gamePhaseInvAt s s.phase

theorem gameInv_init : GameInv initGameState := trivial

theorem gameInv_startGame (s : GameState) : GameInv (startGame s) := by
  obtain ⟨ph, fs, idx, kn, fl, pe, ab, er⟩ := s
  by_cases h : (0 : Nat) ≥ fs.length
  · have hz : fs.length = 0 := by omega
    simp [startGame, displayCurrentCard, GameInv, gamePhaseInvAt, h, hz]
  · simp [startGame, displayCurrentCard, GameInv, gamePhaseInvAt, h]
    omega

theorem gameInv_step (s : GameState) (e : GameEvent) (h : GameInv s) :
    GameInv (gameStep s e) := by
  obtain ⟨ph, fs, idx, kn, fl, pe, ab, er⟩ := s
  cases e with
  | startGameClick =>
      cases ph with
      | idle => exact ⟨rfl, rfl⟩
      | loading => exact h
      | loadFailed => exact h
      | presenting => exact h
      | results => exact h
  | cancelClick =>
      cases ph with
      | idle => exact h
      | loading => exact trivial
      | loadFailed => exact trivial
      | presenting => exact h
      | results => exact h
  | gameResponse r =>
      cases pe with
      | false => exact h
      | true =>
          cases ab with
          | true => exact h
          | false =>
              rcases r with _ | fs2
              · exact trivial
              · rcases fs2 with _ | ⟨c, cs⟩
                · exact trivial
                · have hred :
                      gameStep
                        { phase := ph, flashcards := fs,
                          currentCardIndex := idx, knownCardsCount := kn,
                          isFlipped := fl, pending := true, aborted := false,
                          errorShown := er }
                        (GameEvent.gameResponse (some (c :: cs))) =
                      startGame
                        { phase := ph, flashcards := c :: cs,
                          currentCardIndex := idx, knownCardsCount := kn,
                          isFlipped := fl, pending := false, aborted := false,
                          errorShown := er } := by
                    simp [gameStep]
                  rw [hred]
                  exact gameInv_startGame _
  | flipCard =>
      cases ph with
      | idle => exact h
      | loading => exact h
      | loadFailed => exact h
      | presenting => exact h
      | results => exact h
  | knewIt =>
      cases ph with
      | idle => exact h
      | loading => exact h
      | loadFailed => exact h
      | results => exact h
      | presenting =>
          cases fl with
          | false => exact h
          | true =>
              replace h : idx < fs.length := h
              by_cases hge : idx + 1 ≥ fs.length
              · have : idx + 1 = fs.length := by omega
                simp [gameStep, advanceCard, displayCurrentCard, GameInv,
                  gamePhaseInvAt, hge, this]
              · simp [gameStep, advanceCard, displayCurrentCard, GameInv,
                  gamePhaseInvAt, hge]
                omega
  | didntKnow =>
      cases ph with
      | idle => exact h
      | loading => exact h
      | loadFailed => exact h
      | results => exact h
      | presenting =>
          cases fl with
          | false => exact h
          | true =>
              replace h : idx < fs.length := h
              by_cases hge : idx + 1 ≥ fs.length
              · have : idx + 1 = fs.length := by omega
                simp [gameStep, advanceCard, displayCurrentCard, GameInv,
                  gamePhaseInvAt, hge, this]
              · simp [gameStep, advanceCard, displayCurrentCard, GameInv,
                  gamePhaseInvAt, hge]
                omega
  | restartGame =>
      cases ph with
      | idle => exact h
      | loading => exact h
      | loadFailed => exact h
      | presenting => exact h
      | results => exact gameInv_startGame _
  | exitGame =>
      cases ph with
      | idle => exact h
      | loading => exact h
      | loadFailed => exact h
      | presenting => exact h
      | results => exact trivial

theorem gameInv_run (es : List GameEvent) (s : GameState) (h : GameInv s) :
    GameInv (runGame s es) := by
  induction es generalizing s with
  | nil => exact h
  | cons e es ih => exact ih (gameStep s e) (gameInv_step s e h)

theorem gameInv_reachable (s : GameState) (h : GameReachable s) :
    GameInv s := by
  obtain ⟨es, hes⟩ := h
  exact hes ▸ gameInv_run es initGameState gameInv_init

/-- A sample quiz question used in concrete executions. -/
def cexQ : QuizQuestion :=
  { question := "q", options := ["a", "b", "c", "d"], correctAnswer := "a" }

/-- A sample flashcard used in concrete executions. -/
def cexCard : Flashcard := { term := "t", definition := "d" }

/-- Selecting the option labelled b on `cexQ` is scored incorrect. -/
theorem cexQ_wrong : isCorrectAnswer "b" "a" = false := by decide

/-- Events of a one-question quiz answered incorrectly, ending on the
results screen. -/
def wrongRunEvents : List QuizEvent :=
  [QuizEvent.quizResponse (some [cexQ]), QuizEvent.selectOption "b",
   QuizEvent.next]

/-- The results-screen state of the one-question quiz answered
incorrectly. -/
def resultsRun : QuizState := runQuiz initQuizState wrongRunEvents

/-- C4: `listAll` (that is, `loadHistoryFromDB`) returns a permutation
of the stored records, sorted descending by timestamp (newest first),
and the empty sequence when no records exist. -/
theorem listAll_spec (records : List HistoryItem) :
    (loadHistoryFromDB records).Perm records ∧
    List.Pairwise (fun a b => b.timestamp ≤ a.timestamp)
      (loadHistoryFromDB records) ∧
    loadHistoryFromDB ([] : List HistoryItem) = [] := by
  refine ⟨List.mergeSort_perm records newerFirst, ?_, by
    simp [loadHistoryFromDB]⟩
  have htrans : ∀ a b c : HistoryItem,
      newerFirst a b → newerFirst b c → newerFirst a c := by
    intro a b c hab hbc
    simp only [newerFirst, decide_eq_true_eq] at *
    omega
  have htotal : ∀ a b : HistoryItem, newerFirst a b || newerFirst b a := by
    intro a b
    simp only [newerFirst, Bool.or_eq_true, decide_eq_true_eq]
    omega
  have hs := List.sorted_mergeSort htrans htotal records
  exact hs.imp (fun h => by
    simpa [newerFirst, decide_eq_true_eq] using h)

/-- C5: after a confirmed successful clear the in-memory history is
empty, a subsequent `listAll` over the store returns the empty
sequence, and the active selection becomes none (the code clears it
unconditionally, hence in particular whenever it pointed at a cleared
record); after a failed clear the prior in-memory history, the active
selection and the store are all left untouched. -/
theorem clear_spec (s : AppState) :
    ((clearHistory true true s).history = [] ∧
      (clearHistory true true s).activeFile = none ∧
      loadHistoryFromDB (clearHistory true true s).store = []) ∧
    ((clearHistory true false s).history = s.history ∧
      (clearHistory true false s).activeFile = s.activeFile ∧
      (clearHistory true false s).store = s.store) := by
  refine ⟨⟨rfl, rfl, ?_⟩, rfl, rfl, rfl⟩
  show loadHistoryFromDB [] = []
  simp [loadHistoryFromDB]

/-- Three well-formed questions: fewer than the five the schema asks
for. -/
def threeQs : List QuizQuestion := [cexQ, cexQ, cexQ]

/-- C6 counterexample: a response carrying only 3 questions passes the
validation (`questions.length > 0`) and the quiz starts with 3
questions, so `generateQuiz` does not yield exactly 5 questions on
every success. -/
theorem quiz_five_cex :
    parseQuizResponse (some threeQs) = Except.ok threeQs ∧
    threeQs.length ≠ 5 ∧
    (quizStep initQuizState (QuizEvent.quizResponse (some threeQs))).phase =
      QuizPhase.presenting false ∧
    (quizStep initQuizState
        (QuizEvent.quizResponse (some threeQs))).quizQuestions.length = 3 :=
  ⟨rfl, by decide, rfl, rfl⟩

/-- C6 (amended): the quiz generation succeeds exactly on a parsed
response with a non-empty question list (5 are requested but any
positive count is accepted); a malformed or empty response yields the
invalid-format error, the quiz does not start and the question set is
unchanged; on success the quiz starts with exactly the returned
questions. -/
theorem quiz_response_spec :
    (∀ r qs, parseQuizResponse r = Except.ok qs ↔ (r = some qs ∧ qs ≠ [])) ∧
    (∀ (s : QuizState) r m, s.phase = QuizPhase.idle →
      parseQuizResponse r = Except.error m →
      (quizStep s (QuizEvent.quizResponse r)).phase = QuizPhase.idle ∧
      (quizStep s (QuizEvent.quizResponse r)).quizQuestions =
        s.quizQuestions ∧
      (quizStep s (QuizEvent.quizResponse r)).score = s.score) ∧
    (∀ (s : QuizState) qs, s.phase = QuizPhase.idle →
      parseQuizResponse (some qs) = Except.ok qs →
      (quizStep s (QuizEvent.quizResponse (some qs))).phase =
        QuizPhase.presenting false ∧
      (quizStep s (QuizEvent.quizResponse (some qs))).quizQuestions = qs) := by
  refine ⟨?_, ?_, ?_⟩
  · intro r qs
    rcases r with _ | qs2
    · simp [parseQuizResponse]
    · rcases qs2 with _ | ⟨q, qs2⟩
      · simp [parseQuizResponse]
      · simp only [parseQuizResponse, List.length_cons]
        rw [if_pos (by omega)]
        constructor
        · intro h
          cases h
          exact ⟨rfl, by simp⟩
        · rintro ⟨h, _⟩
          cases h
          rfl
  · intro s r m hp herr
    rw [quizStep, if_pos hp, herr]
    exact ⟨hp, rfl, rfl⟩
  · intro s qs hp hok
    rw [quizStep, if_pos hp, hok]
    exact ⟨rfl, rfl⟩

/-- C6 witness: concrete instances of the amended statement. -/
theorem quiz_response_spec_witness :
    (parseQuizResponse (some [cexQ]) = Except.ok [cexQ] ↔
      (some [cexQ] = some [cexQ] ∧ [cexQ] ≠ [])) ∧
    (quizStep initQuizState (QuizEvent.quizResponse none)).phase =
      QuizPhase.idle ∧
    (quizStep initQuizState
        (QuizEvent.quizResponse (some [cexQ]))).quizQuestions = [cexQ] :=
  ⟨quiz_response_spec.1 (some [cexQ]) [cexQ],
   (quiz_response_spec.2.1 initQuizState none
      "Invalid quiz format received from AI." rfl rfl).1,
   (quiz_response_spec.2.2 initQuizState [cexQ] rfl rfl).2⟩

/-- C1: in every reachable quiz state the score equals the number of
recorded selections whose selected option, trimmed and lowercased,
equals the question's correct answer trimmed and lowercased; the
mistake log is exactly the sequence of incorrect selections; and a
single scoring evaluation increments the score by exactly 1 when
correct, and otherwise leaves it unchanged and appends the
(question, selected) pair to the mistake log. -/
theorem quiz_score_spec (s : QuizState) (h : QuizReachable s) :
    (s.score = (s.selections.filter
        (fun p => isCorrectAnswer p.2 p.1.correctAnswer)).length ∧
      s.incorrectAnswers = (s.selections.filter
          (fun p => !isCorrectAnswer p.2 p.1.correctAnswer)).map
        (fun p => { question := p.1, selected := p.2 })) ∧
    ∀ q o, s.phase = QuizPhase.presenting false →
      s.quizQuestions[s.currentQuestionIndex]? = some q → o ∈ q.options →
      ((isCorrectAnswer o q.correctAnswer = true →
          (quizStep s (QuizEvent.selectOption o)).score = s.score + 1 ∧
          (quizStep s (QuizEvent.selectOption o)).incorrectAnswers =
            s.incorrectAnswers) ∧
        (isCorrectAnswer o q.correctAnswer = false →
          (quizStep s (QuizEvent.selectOption o)).score = s.score ∧
          (quizStep s (QuizEvent.selectOption o)).incorrectAnswers =
            s.incorrectAnswers ++ [{ question := q, selected := o }])) := by
  have hinv := quizInv_reachable s h
  refine ⟨⟨hinv.1, hinv.2.1⟩, ?_⟩
  intro q o hp hq hmem
  constructor
  · intro hc
    simp [quizStep, hp, hq, hmem, handleOptionClick, hc]
  · intro hc
    simp [quizStep, hp, hq, hmem, handleOptionClick, hc]

/-- C1 witness: the score/mistake-log characterisation and the
single-step behaviour at a concrete reachable state. -/
theorem quiz_score_spec_witness :
    (runQuiz initQuizState [QuizEvent.quizResponse (some [cexQ])]).score =
      ((runQuiz initQuizState
          [QuizEvent.quizResponse (some [cexQ])]).selections.filter
        (fun p => isCorrectAnswer p.2 p.1.correctAnswer)).length ∧
    (quizStep (runQuiz initQuizState [QuizEvent.quizResponse (some [cexQ])])
        (QuizEvent.selectOption "b")).score =
      (runQuiz initQuizState
        [QuizEvent.quizResponse (some [cexQ])]).score :=
  ⟨(quiz_score_spec _ ⟨[QuizEvent.quizResponse (some [cexQ])], rfl⟩).1.1,
   (((quiz_score_spec _
        ⟨[QuizEvent.quizResponse (some [cexQ])], rfl⟩).2 cexQ "b"
      rfl rfl (by decide)).2 (by decide)).1⟩

/-- C2: on every reachable results screen the mistake-review button is
visible iff the final score divided by the number of questions is
strictly below 0.6 and the mistake log is non-empty. -/
theorem review_offer_spec (s : QuizState) (h : QuizReachable s)
    (hres : s.phase = QuizPhase.results) :
    s.reviewBtnVisible = true ↔
      ((s.score : ℚ) / (s.quizQuestions.length : ℚ) < 6 / 10 ∧
        s.incorrectAnswers ≠ []) := by
  have hinv := quizInv_reachable s h
  have hp : phaseInvAt s s.phase := hinv.2.2
  rw [hres] at hp
  obtain ⟨_, _, _, hbtn⟩ := hp
  rw [hbtn]
  simp only [reviewOffered, Bool.and_eq_true, decide_eq_true_eq,
    List.length_pos]

/-- C2 witness: the equivalence evaluated on the results screen of a
concrete quiz run. -/
theorem review_offer_spec_witness :
    resultsRun.reviewBtnVisible = true ↔
      ((resultsRun.score : ℚ) / (resultsRun.quizQuestions.length : ℚ) <
          6 / 10 ∧
        resultsRun.incorrectAnswers ≠ []) :=
  review_offer_spec resultsRun ⟨wrongRunEvents, rfl⟩ rfl

/-- The index of the current question never changes on a selection. -/
theorem selectOption_idx (s : QuizState) (o : String) :
    (quizStep s (QuizEvent.selectOption o)).currentQuestionIndex =
      s.currentQuestionIndex := by
  obtain ⟨ph, qq, ia, idx, sc, rev, btn, gw, sel⟩ := s
  cases ph with
  | idle => rfl
  | results => rfl
  | reviewing => rfl
  | presenting b =>
      cases b with
      | true => rfl
      | false =>
          rcases hq : qq[idx]? with _ | q
          · simp [quizStep, hq]
          · simp only [quizStep, hq]
            split
            · rw [handleOptionClick]
              split <;> rfl
            · rfl

/-- C3: in every reachable state of the quiz flow, the mistake-review
sub-flow and the flashcard flow, the current index stays within the
active sequence: strictly below its length whenever an element is
displayed (so every read succeeds), equal to a traversed sequence's
length on the results screens, and an advance at the last element is
exactly the transition to the results state. -/
theorem index_bounds_spec :
    (∀ s : QuizState, QuizReachable s →
      (∀ b, s.phase = QuizPhase.presenting b →
        s.currentQuestionIndex < s.quizQuestions.length ∧
          (s.quizQuestions[s.currentQuestionIndex]?).isSome = true) ∧
      (s.phase = QuizPhase.reviewing →
        s.currentQuestionIndex < s.incorrectAnswers.length ∧
          (s.incorrectAnswers[s.currentQuestionIndex]?).isSome = true) ∧
      (s.phase = QuizPhase.results →
        s.currentQuestionIndex = s.quizQuestions.length ∨
          s.currentQuestionIndex = s.incorrectAnswers.length) ∧
      (s.phase = QuizPhase.presenting true →
        s.currentQuestionIndex + 1 = s.quizQuestions.length →
        (quizStep s QuizEvent.next).phase = QuizPhase.results) ∧
      (s.phase = QuizPhase.reviewing →
        s.currentQuestionIndex + 1 = s.incorrectAnswers.length →
        (quizStep s QuizEvent.next).phase = QuizPhase.results)) ∧
    (∀ g : GameState, GameReachable g →
      (g.phase = GamePhase.presenting →
        g.currentCardIndex < g.flashcards.length ∧
          (g.flashcards[g.currentCardIndex]?).isSome = true) ∧
      (g.phase = GamePhase.results →
        g.currentCardIndex = g.flashcards.length) ∧
      (g.phase = GamePhase.presenting → g.isFlipped = true →
        g.currentCardIndex + 1 = g.flashcards.length →
        (gameStep g GameEvent.knewIt).phase = GamePhase.results ∧
          (gameStep g GameEvent.didntKnow).phase = GamePhase.results)) := by
  constructor
  · intro s h
    have hinv := quizInv_reachable s h
    have hp : phaseInvAt s s.phase := hinv.2.2
    refine ⟨?_, ?_, ?_, ?_, ?_⟩
    · intro b hb
      rw [hb] at hp
      exact ⟨hp.1, by simp [List.getElem?_eq_getElem hp.1]⟩
    · intro hb
      rw [hb] at hp
      exact ⟨hp.1, by simp [List.getElem?_eq_getElem hp.1]⟩
    · intro hb
      rw [hb] at hp
      exact hp.1
    · intro hb hlast
      rw [hb] at hp
      simp only [quizStep, hb, nextQuestion, hp.2, Bool.false_eq_true,
        if_false]
      rw [if_neg (by omega)]
      rfl
    · intro hb hlast
      rw [hb] at hp
      simp only [quizStep, hb, nextQuestion, hp.2.1, if_true]
      rw [if_neg (by omega)]
      rfl
  · intro g h
    have hinv := gameInv_reachable g h
    have hp : gamePhaseInvAt g g.phase := hinv
    refine ⟨?_, ?_, ?_⟩
    · intro hb
      rw [hb] at hp
      exact ⟨hp, by simp [List.getElem?_eq_getElem hp]⟩
    · intro hb
      rw [hb] at hp
      exact hp
    · intro hb hfl hlast
      rw [hb] at hp
      constructor
      · simp only [gameStep]
        rw [if_pos ⟨hb, hfl⟩]
        simp only [advanceCard, displayCurrentCard]
        rw [if_pos (by omega)]
      · simp only [gameStep]
        rw [if_pos ⟨hb, hfl⟩]
        simp only [advanceCard, displayCurrentCard]
        rw [if_pos (by omega)]

/-- C3 witness: bounds at concrete reachable states of both flows, and
the advance-at-last transitions on one-element sequences. -/
theorem index_bounds_spec_witness :
    ((runQuiz initQuizState
        [QuizEvent.quizResponse (some [cexQ])]).currentQuestionIndex <
      (runQuiz initQuizState
        [QuizEvent.quizResponse (some [cexQ])]).quizQuestions.length) ∧
    (quizStep (runQuiz initQuizState
        [QuizEvent.quizResponse (some [cexQ]), QuizEvent.selectOption "b"])
        QuizEvent.next).phase = QuizPhase.results ∧
    (runGame initGameState [GameEvent.startGameClick,
        GameEvent.gameResponse (some [cexCard])]).currentCardIndex <
      (runGame initGameState [GameEvent.startGameClick,
        GameEvent.gameResponse (some [cexCard])]).flashcards.length ∧
    (gameStep (runGame initGameState [GameEvent.startGameClick,
        GameEvent.gameResponse (some [cexCard]), GameEvent.flipCard])
        GameEvent.knewIt).phase = GamePhase.results :=
  ⟨((index_bounds_spec.1 _
      ⟨[QuizEvent.quizResponse (some [cexQ])], rfl⟩).1 false rfl).1,
   (index_bounds_spec.1 _
      ⟨[QuizEvent.quizResponse (some [cexQ]), QuizEvent.selectOption "b"],
        rfl⟩).2.2.2.1 rfl (by decide),
   ((index_bounds_spec.2 _
      ⟨[GameEvent.startGameClick, GameEvent.gameResponse (some [cexCard])],
        rfl⟩).1 rfl).1,
   ((index_bounds_spec.2 _
      ⟨[GameEvent.startGameClick, GameEvent.gameResponse (some [cexCard]),
        GameEvent.flipCard], rfl⟩).2.2 rfl rfl (by decide)).1⟩

/-- C9: once a question is answered every further selection on it is a
no-op on the whole state (all option buttons are disabled), so no
sequence of further selections changes the score or the mistake log,
and while a question is presented the only event that moves the
current index is the explicit next action. -/
theorem single_scoring_spec :
    (∀ (s : QuizState) (o : String), s.phase = QuizPhase.presenting true →
      quizStep s (QuizEvent.selectOption o) = s) ∧
    (∀ (s : QuizState) (os : List String),
      s.phase = QuizPhase.presenting true →
      runQuiz s (os.map QuizEvent.selectOption) = s) ∧
    (∀ (s : QuizState) (e : QuizEvent) (b : Bool),
      s.phase = QuizPhase.presenting b →
      (quizStep s e).currentQuestionIndex ≠ s.currentQuestionIndex →
      e = QuizEvent.next) := by
  have h1 : ∀ (s : QuizState) (o : String),
      s.phase = QuizPhase.presenting true →
      quizStep s (QuizEvent.selectOption o) = s := by
    intro s o hp
    simp [quizStep, hp]
  refine ⟨h1, ?_, ?_⟩
  · intro s os hp
    induction os generalizing s with
    | nil => rfl
    | cons o os ih =>
        show runQuiz (quizStep s (QuizEvent.selectOption o)) _ = s
        rw [h1 s o hp]
        exact ih s hp
  · intro s e b hp hne
    cases e with
    | next => rfl
    | quizResponse r =>
        exfalso
        apply hne
        rw [quizStep, if_neg (by rw [hp]; simp)]
    | selectOption o => exact absurd (selectOption_idx s o) hne
    | reviewMistakes =>
        exfalso
        apply hne
        rw [quizStep, if_neg (by rw [hp]; simp)]
    | restart =>
        exfalso
        apply hne
        rw [quizStep, if_neg (by rw [hp]; simp)]
    | exitQuiz =>
        exfalso
        apply hne
        rw [quizStep, if_neg (by rw [hp]; simp)]

/-- C9 witness: a repeated selection on an answered concrete question
leaves the state unchanged. -/
theorem single_scoring_spec_witness :
    quizStep (runQuiz initQuizState
        [QuizEvent.quizResponse (some [cexQ]), QuizEvent.selectOption "b"])
      (QuizEvent.selectOption "a") =
    runQuiz initQuizState
      [QuizEvent.quizResponse (some [cexQ]), QuizEvent.selectOption "b"] :=
  single_scoring_spec.1 _ "a" rfl

/-- C10: signalling cancellation while flashcard generation is loading
returns the flow to the idle (Q&A) section, keeps the flashcard set
unchanged, shows no error, and makes the late settling of the request
(result or error alike) a strict no-op on the state. -/
theorem cancel_spec (g : GameState) (hl : g.phase = GamePhase.loading) :
    (gameStep g GameEvent.cancelClick).phase = GamePhase.idle ∧
    (gameStep g GameEvent.cancelClick).flashcards = g.flashcards ∧
    (gameStep g GameEvent.cancelClick).errorShown = false ∧
    ∀ r, gameStep (gameStep g GameEvent.cancelClick)
        (GameEvent.gameResponse r) =
      gameStep g GameEvent.cancelClick := by
  have hguard : g.phase = GamePhase.loading ∨ g.phase = GamePhase.loadFailed :=
    Or.inl hl
  rw [gameStep, if_pos hguard]
  refine ⟨rfl, rfl, rfl, ?_⟩
  intro r
  simp only [gameStep]
  split
  · rfl
  · rfl

/-- C10 witness: cancelling a concrete in-flight generation. -/
theorem cancel_spec_witness :
    (gameStep (runGame initGameState [GameEvent.startGameClick])
        GameEvent.cancelClick).phase = GamePhase.idle ∧
    ∀ r, gameStep (gameStep (runGame initGameState
          [GameEvent.startGameClick]) GameEvent.cancelClick)
        (GameEvent.gameResponse r) =
      gameStep (runGame initGameState [GameEvent.startGameClick])
        GameEvent.cancelClick :=
  ⟨(cancel_spec _ rfl).1, (cancel_spec _ rfl).2.2.2⟩

/-- The state after entering mistake review from `resultsRun` and
advancing past its single (and hence last) mistake. -/
def reviewRun : QuizState :=
  runQuiz initQuizState
    (wrongRunEvents ++ [QuizEvent.reviewMistakes, QuizEvent.next])

/-- C7 counterexample: after a one-question quiz answered incorrectly
(score 0 of 1, one logged mistake), entering mistake review and
advancing past the last mistake returns to the results screen, but the
review option is offered again — the score percentage is still below
0.6 and the mistake log still non-empty — rather than suppressed. -/
theorem review_suppressed_cex :
    reviewRun.phase = QuizPhase.results ∧
    reviewRun.reviewBtnVisible = true := by
  constructor <;>
    norm_num [reviewRun, wrongRunEvents, runQuiz, quizStep,
      parseQuizResponse, startQuiz, handleOptionClick, nextQuestion,
      showResults, reviewOffered, initQuizState, cexQ, cexQ_wrong]

/-- C7 (amended): advancing past the last mistake returns the flow to
the Results state, and the review pass changes neither the score, the
mistake log nor the question set; consequently the review option on
the re-shown results screen is governed by the unchanged original
condition (score/total < 0.6 and non-empty mistake log) — it is
re-offered, not suppressed. -/
theorem review_pass_spec (s : QuizState)
    (hrev : s.phase = QuizPhase.reviewing)
    (hflag : s.isReviewingMistakes = true) :
    (∀ e, (quizStep s e).score = s.score ∧
      (quizStep s e).incorrectAnswers = s.incorrectAnswers ∧
      (quizStep s e).quizQuestions = s.quizQuestions) ∧
    (s.currentQuestionIndex + 1 = s.incorrectAnswers.length →
      (quizStep s QuizEvent.next).phase = QuizPhase.results ∧
      (quizStep s QuizEvent.next).reviewBtnVisible = reviewOffered s) := by
  constructor
  · intro e
    cases e with
    | quizResponse r => refine ⟨?_, ?_, ?_⟩ <;> simp [quizStep, hrev]
    | selectOption o => refine ⟨?_, ?_, ?_⟩ <;> simp [quizStep, hrev]
    | next =>
        refine ⟨?_, ?_, ?_⟩ <;>
          (simp only [quizStep, hrev, nextQuestion, hflag, if_true]
           split
           · rfl
           · rfl)
    | reviewMistakes => refine ⟨?_, ?_, ?_⟩ <;> simp [quizStep, hrev]
    | restart => refine ⟨?_, ?_, ?_⟩ <;> simp [quizStep, hrev]
    | exitQuiz => refine ⟨?_, ?_, ?_⟩ <;> simp [quizStep, hrev]
  · intro hlast
    constructor
    · simp only [quizStep, hrev, nextQuestion, hflag, if_true]
      rw [if_neg (by omega)]
      rfl
    · simp only [quizStep, hrev, nextQuestion, hflag, if_true]
      rw [if_neg (by omega)]
      rfl

/-- A concrete state inside the mistake-review sub-flow, positioned at
its single (last) mistake. -/
def reviewingDemo : QuizState :=
  { phase := QuizPhase.reviewing, quizQuestions := [cexQ],
    incorrectAnswers := [{ question := cexQ, selected := "b" }],
    currentQuestionIndex := 0, score := 0, isReviewingMistakes := true,
    reviewBtnVisible := true, gatewayCalls := 1,
    selections := [(cexQ, "b")] }

/-- C7 witness: the amended statement at a concrete review state. -/
theorem review_pass_spec_witness :
    (quizStep reviewingDemo QuizEvent.next).phase = QuizPhase.results ∧
    (quizStep reviewingDemo QuizEvent.next).incorrectAnswers =
      reviewingDemo.incorrectAnswers ∧
    (quizStep reviewingDemo QuizEvent.next).score = reviewingDemo.score :=
  ⟨((review_pass_spec reviewingDemo rfl rfl).2 rfl).1,
   ((review_pass_spec reviewingDemo rfl rfl).1 QuizEvent.next).2.1,
   ((review_pass_spec reviewingDemo rfl rfl).1 QuizEvent.next).1⟩

/-- C8 counterexample: restarting from the results screen of a
concrete finished quiz resets the counters but issues no new gateway
call (`gatewayCalls` stays at 1) and replays the very same question
set, contradicting the claim that restart fetches a new quiz via the
gateway. -/
theorem restart_refetch_cex :
    resultsRun.phase = QuizPhase.results ∧
    resultsRun.gatewayCalls = 1 ∧
    (quizStep resultsRun QuizEvent.restart).gatewayCalls = 1 ∧
    (quizStep resultsRun QuizEvent.restart).quizQuestions =
      resultsRun.quizQuestions ∧
    (quizStep resultsRun QuizEvent.restart).score = 0 :=
  ⟨rfl, rfl, rfl, rfl, rfl⟩

/-- C8 (amended): from the results screen, restart performs a full
reset (index, score, mistake log, review flag) and replays the same
already-fetched question set without calling the gateway again; exit
discards all quiz state and returns to idle, likewise without calling
the gateway. -/
theorem restart_exit_spec (s : QuizState)
    (hres : s.phase = QuizPhase.results) :
    ((quizStep s QuizEvent.restart).phase = QuizPhase.presenting false ∧
      (quizStep s QuizEvent.restart).currentQuestionIndex = 0 ∧
      (quizStep s QuizEvent.restart).score = 0 ∧
      (quizStep s QuizEvent.restart).incorrectAnswers = [] ∧
      (quizStep s QuizEvent.restart).isReviewingMistakes = false ∧
      (quizStep s QuizEvent.restart).quizQuestions = s.quizQuestions ∧
      (quizStep s QuizEvent.restart).gatewayCalls = s.gatewayCalls) ∧
    ((quizStep s QuizEvent.exitQuiz).phase = QuizPhase.idle ∧
      (quizStep s QuizEvent.exitQuiz).quizQuestions = [] ∧
      (quizStep s QuizEvent.exitQuiz).incorrectAnswers = [] ∧
      (quizStep s QuizEvent.exitQuiz).currentQuestionIndex = 0 ∧
      (quizStep s QuizEvent.exitQuiz).score = 0 ∧
      (quizStep s QuizEvent.exitQuiz).gatewayCalls = s.gatewayCalls) := by
  constructor
  · rw [quizStep, if_pos hres]
    exact ⟨rfl, rfl, rfl, rfl, rfl, rfl, rfl⟩
  · rw [quizStep, if_pos hres]
    exact ⟨rfl, rfl, rfl, rfl, rfl, rfl⟩

/-- C8 witness: the amended statement at the results screen of a
concrete quiz run. -/
theorem restart_exit_spec_witness :
    (quizStep resultsRun QuizEvent.restart).score = 0 ∧
    (quizStep resultsRun QuizEvent.restart).gatewayCalls =
      resultsRun.gatewayCalls ∧
    (quizStep resultsRun QuizEvent.exitQuiz).phase = QuizPhase.idle ∧
    (quizStep resultsRun QuizEvent.exitQuiz).gatewayCalls =
      resultsRun.gatewayCalls :=
  ⟨(restart_exit_spec resultsRun rfl).1.2.2.1,
   (restart_exit_spec resultsRun rfl).1.2.2.2.2.2.2,
   (restart_exit_spec resultsRun rfl).2.1,
   (restart_exit_spec resultsRun rfl).2.2.2.2.2.2⟩

end StudyMania
